import Mathlib

/-!
# iam-extractor: the extraction-and-rendering pipeline of `cmd/root.go`

A shallow embedding of `cmd/root.go` and of the few Go library functions it
calls (`strings.Repeat`, `strings.Split`, `strings.Join`, `strings.Replace`,
`fmt.Sprintf` for the verbs `%s` and `%d`).

* A Go `string` is modelled as the list of its characters (`Str`).  The
  separators the program uses (`"\n"`, `"-"`) and the format verbs are ASCII,
  so on well-formed UTF-8 text splitting and replacing by character agrees
  with Go's byte-wise behaviour.
* A Go pointer that may be `nil` is an `Option`; dereferencing `none` is a
  run-time panic.
* `log.Fatalf` and run-time panics end the process; a computation that may
  end that way returns an `Outcome`.
* The remote service is read as a snapshot: each `IamApi` method is a function
  of its request parameters returning Go's pair `(output, err)`.
* `url.QueryUnescape` and `yaml.JSONToYAML` are external libraries; they are
  parameters of the model (`Codec`).
-/

namespace IamExtractor

/-- A Go string: the sequence of its characters. -/
abbrev Str := List Char

/-- How a Go computation ends: it returns a value, the process is ended by
`log.Fatalf` with a message, or a run-time panic occurs. -/
inductive Outcome (α : Type) where
  | ok (a : α)
  | fatal (msg : Str)
  | panic
  deriving DecidableEq

/-- Sequencing of Go statements: the first abnormal end wins. -/
def Outcome.bind {α β : Type} : Outcome α → (α → Outcome β) → Outcome β
  | .ok a, f => f a
  | .fatal msg, _ => .fatal msg
  | .panic, _ => .panic

instance : Monad Outcome where
  pure := Outcome.ok
  bind := Outcome.bind

/-- Dereference of a Go pointer: `nil` panics. -/
def deref {α : Type} : Option α → Outcome α
  | some a => .ok a
  | none => .panic

/-! ## Go library functions -/

/-- The text made of `count` copies of `s`, one after the other. -/
def repeatN (s : Str) : Nat → Str
  | 0 => []
  | k + 1 => s ++ repeatN s k

/-- Go `strings.Repeat(s, count)`: panics on a negative count. -/
def Repeat (s : Str) (count : Int) : Outcome Str :=
  if count < 0 then .panic else .ok (repeatN s count.toNat)

/-- Scan of `strings.Split` for a non-empty separator: `skip` characters of a
separator just matched are still to be dropped, `cur` is the piece read so
far. -/
def splitAux (sep : Str) : Str → Nat → Str → List Str
  | [], _, cur => [cur]
  | _ :: cs, skip + 1, cur => splitAux sep cs skip cur
  | c :: cs, 0, cur =>
    if sep.isPrefixOf (c :: cs) then cur :: splitAux sep cs (sep.length - 1) []
    else splitAux sep cs 0 (cur ++ [c])

/-- Go `strings.Split(s, sep)`: the pieces of `s` between the occurrences of
`sep` (an empty `sep` splits after every character). -/
def Split (s sep : Str) : List Str :=
  if sep = [] then s.map (fun c => [c]) else splitAux sep s 0 []

/-- Go `strings.Join(elems, sep)`. -/
def Join : List Str → Str → Str
  | [], _ => []
  | [a], _ => a
  | a :: b :: rest, sep => a ++ sep ++ Join (b :: rest) sep

/-- Scan of `strings.Replace` for a non-empty `old`: `skip` characters of an
occurrence just replaced are still to be dropped, `n` replacements are left
(a negative `n` never runs out). -/
def replaceAux (old new : Str) : Str → Nat → Int → Str
  | [], _, _ => []
  | _ :: cs, skip + 1, n => replaceAux old new cs skip n
  | c :: cs, 0, n =>
    if n ≠ 0 ∧ old.isPrefixOf (c :: cs) then
      new ++ replaceAux old new cs (old.length - 1) (n - 1)
    else c :: replaceAux old new cs 0 n

/-- The case of `strings.Replace` with an empty `old`: `new` is inserted before
each character and at the end, up to `n` times. -/
def replaceEmpty (new : Str) : Str → Int → Str
  | [], n => if n ≠ 0 then new else []
  | c :: cs, n => if n ≠ 0 then new ++ c :: replaceEmpty new cs (n - 1) else c :: cs

/-- Go `strings.Replace(s, old, new, n)`: the first `n` non-overlapping
occurrences of `old` replaced by `new`, all of them when `n < 0`. -/
def Replace (s old new : Str) (n : Int) : Str :=
  if old = new ∨ n = 0 then s
  else if old = [] then replaceEmpty new s n
  else replaceAux old new s 0 n

/-- An operand of `fmt.Sprintf`: the program passes strings and one `int32`. -/
inductive Arg where
  | str (s : Str)
  | int32 (d : Int)
  deriving DecidableEq

/-- Decimal text of an integer, as `%d` prints it. -/
def formatInt (d : Int) : Str :=
  if d < 0 then '-' :: Nat.toDigits 10 d.natAbs else Nat.toDigits 10 d.natAbs

/-- The `type=value` text `fmt` uses when it reports an operand. -/
def Arg.describe : Arg → Str
  | .str s => "string=".toList ++ s
  | .int32 d => "int32=".toList ++ formatInt d

/-- One verb applied to one operand: `%s` prints a string, `%d` an integer; a
verb that does not fit its operand is reported as `%!verb(type=value)`. -/
def formatVerb (verb : Char) (a : Arg) : Str :=
  match verb, a with
  | 's', .str s => s
  | 'd', .int32 d => formatInt d
  | v, a => "%!".toList ++ v :: '(' :: a.describe ++ ")".toList

/-- Go `fmt.Sprintf(format, args...)` for formats built from plain text and the
verbs `%s`, `%d` and `%%` (the only ones in this program): each verb consumes
the next operand; a verb without operand prints `%!verb(MISSING)`, operands
left over are reported as `%!(EXTRA ...)`. -/
def Sprintf : Str → List Arg → Str
  | [], [] => []
  | [], a :: args =>
    "%!(EXTRA ".toList ++ Join ((a :: args).map Arg.describe) ", ".toList ++ ")".toList
  | [c], args => if c = '%' then "%!(NOVERB)".toList ++ Sprintf [] args else c :: Sprintf [] args
  | c :: v :: fmt, args =>
    if c = '%' then
      if v = '%' then '%' :: Sprintf fmt args
      else
        match args with
        | [] => "%!".toList ++ v :: "(MISSING)".toList ++ Sprintf fmt []
        | a :: rest => formatVerb v a ++ Sprintf fmt rest
    else c :: Sprintf (v :: fmt) args

/-- Go-funk `funk.Map` over a slice: the function applied to each element, in
order; an abnormal end of one call ends the loop. -/
def funkMap {α β : Type} (f : α → Outcome β) : List α → Outcome (List β)
  | [] => pure []
  | a :: as => do
    let b ← f a
    let bs ← funkMap f as
    pure (b :: bs)

/-! ## `cmd/root.go` -/

/-- The command's receiver, `type IAMExtractor struct`. -/
structure IAMExtractor where
  RoleName : Str
  SuppressOutputStdout : Bool
  FileName : Str
  deriving DecidableEq

/-- The fields of the SDK's `types.Role` that the program reads; each is a
pointer in Go (`MaxSessionDuration` is a `*int32`). -/
structure Role where
  AssumeRolePolicyDocument : Option Str
  Description : Option Str
  MaxSessionDuration : Option Int
  Path : Option Str
  deriving DecidableEq

/-- The SDK's `iam.GetRoleOutput`. -/
structure GetRoleOutput where
  Role : Option Role
  deriving DecidableEq

/-- The SDK's `iam.GetRolePolicyOutput`. -/
structure GetRolePolicyOutput where
  PolicyDocument : Option Str
  deriving DecidableEq

/-- The SDK's `iam.ListRolePoliciesOutput`. -/
structure ListRolePoliciesOutput where
  PolicyNames : List Str
  deriving DecidableEq

/-- The SDK's `types.AttachedPolicy`. -/
structure AttachedPolicy where
  PolicyArn : Option Str
  deriving DecidableEq

/-- The SDK's `iam.ListAttachedRolePoliciesOutput`. -/
structure ListAttachedRolePoliciesOutput where
  AttachedPolicies : List AttachedPolicy
  deriving DecidableEq

/-- The interface `IamApi`: every method returns Go's pair `(output, err)`, the
output a pointer and the error `nil` or an error with its message.
`GetRolePolicy` takes the policy name and the role name, the other methods
the role name. -/
structure IamApi where
  GetRole : Str → Option GetRoleOutput × Option Str
  GetRolePolicy : Str → Str → Option GetRolePolicyOutput × Option Str
  ListRolePolicies : Str → Option ListRolePoliciesOutput × Option Str
  ListAttachedRolePolicies : Str → Option ListAttachedRolePoliciesOutput × Option Str

/-- The two external decoders, each returning Go's pair `(value, err)`:
`url.QueryUnescape` and `yaml.JSONToYAML`. -/
structure Codec where
  QueryUnescape : Str → Str × Option Str
  JSONToYAML : Str → Str × Option Str

/-- What the process has written: the text on standard output and the
`os.WriteFile` calls made (file name and data), oldest first. -/
structure World where
  stdout : Str
  files : List (Str × Str)
  deriving DecidableEq

/-- The method `getRole`: gets the IAM role basics; an error is fatal. -/
def getRole (ie : IAMExtractor) (iamClient : IamApi) : Outcome (Option GetRoleOutput) :=
  match iamClient.GetRole ie.RoleName with
  | (roleOutput, none) => .ok roleOutput
  | (_, some err) =>
    .fatal (Sprintf "Failed getting IAM role '%s' with error:\n%s".toList
      [.str ie.RoleName, .str err])

/-- The method `getInlinePolicies`: lists the inline policies of the role; an
error is fatal. -/
def getInlinePolicies (ie : IAMExtractor) (iamClient : IamApi) :
    Outcome (Option ListRolePoliciesOutput) :=
  match iamClient.ListRolePolicies ie.RoleName with
  | (roleInlinePoliciesOutput, none) => .ok roleInlinePoliciesOutput
  | (_, some err) =>
    .fatal (Sprintf
      "Failed getting IAM role inline policies for role '%s' with error:\n%s".toList
      [.str ie.RoleName, .str err])

/-- The method `getManagedPolicies`: lists the managed policies of the role; an
error is fatal. -/
def getManagedPolicies (ie : IAMExtractor) (iamClient : IamApi) :
    Outcome (Option ListAttachedRolePoliciesOutput) :=
  match iamClient.ListAttachedRolePolicies ie.RoleName with
  | (roleManagedPoliciesOutput, none) => .ok roleManagedPoliciesOutput
  | (_, some err) =>
    .fatal (Sprintf
      "Failed getting IAM role managed policies for role '%s' with error:\n%s".toList
      [.str ie.RoleName, .str err])

/-- The `indent` function: separates the string into lines, buffers each line
with `spaces` spaces and reassembles them. -/
def indent (s : Str) (spaces : Int) : Outcome Str := do
  let spacer ← Repeat " ".toList spaces
  let lines := Split s "\n".toList
  let lines ← funkMap (fun line => pure (Sprintf "%s%s".toList [.str spacer, .str line])) lines
  pure (Join lines "\n".toList)

/-- The method `getInlinePoliciesYaml`: requests the document of each policy
name and shapes it into a yaml segment.  The error of `GetRolePolicy` is
discarded and the output dereferenced; the errors of the two decoders are
discarded as well. -/
def getInlinePoliciesYaml (ie : IAMExtractor) (lib : Codec) (iamClient : IamApi)
    (inlinePolicyNames : List Str) : Outcome (List Str) :=
  funkMap (fun policyName => do
    let rolePolicyOutput := (iamClient.GetRolePolicy policyName ie.RoleName).1
    let output ← deref rolePolicyOutput
    let policyDocument ← deref output.PolicyDocument
    let pd := (lib.QueryUnescape policyDocument).1
    let pdYaml := (lib.JSONToYAML pd).1
    let indented ← indent pdYaml 10
    let yamlSegment := Sprintf "PolicyName: %s\n        PolicyDocument:\n%s".toList
      [.str policyName, .str indented]
    pure yamlSegment) inlinePolicyNames

/-- The method `getSanitizedRoleName`: a role name that meets the requirements
for a yaml object name. -/
def getSanitizedRoleName (_ie : IAMExtractor) (unsanitizedRoleName : Str) : Str :=
  let sanitizedRoleName := Replace unsanitizedRoleName "-".toList "".toList (-1)
  sanitizedRoleName

/-- The format string of `getCfnYamlSnippet` (a raw string literal in the
source, starting and ending with a line break). -/
def cfnTemplate : Str :=
  ("\n%s:\n  Type: AWS::IAM::Role\n  Properties: \n    RoleName: %s\n" ++
   "    Description: %s\n    AssumeRolePolicyDocument:\n%s\n" ++
   "    MaxSessionDuration: %d\n    Path: '%s'\n    Policies:\n      - %s\n" ++
   "    ManagedPolicyArns:\n    - %s\n").toList

/-- The method `getCfnYamlSnippet`: assembles the cloud formation snippet. -/
def getCfnYamlSnippet (ie : IAMExtractor) (roleDescription yamlAssumedRolePolicyDoc : Str)
    (maxSessionDuration : Int) (rolePath : Str) (inlinePolicies managedPolicyArns : List Str) :
    Outcome Str := do
  let sanitizedRoleName := getSanitizedRoleName ie ie.RoleName
  let indented ← indent yamlAssumedRolePolicyDoc 6
  let cfn := Sprintf cfnTemplate
    [.str sanitizedRoleName,
     .str ie.RoleName, .str roleDescription,
     .str indented,
     .int32 maxSessionDuration, .str rolePath,
     .str (Join inlinePolicies "\n      - ".toList),
     .str (Join managedPolicyArns "\n    - ".toList)]
  pure cfn

/-- The body of `extractIamRole` up to its local variable `cfn`: the three
lookups, the inline policies, the managed policy ARNs, the trust policy and
the assembled snippet. -/
def extractIamRoleCfn (ie : IAMExtractor) (lib : Codec) (iamClient : IamApi) : Outcome Str := do
  let roleOutput ← getRole ie iamClient
  let roleInlinePoliciesOutput ← getInlinePolicies ie iamClient
  let roleManagedPoliciesOutput ← getManagedPolicies ie iamClient
  let inlineOutput ← deref roleInlinePoliciesOutput
  let inlinePolicies ← getInlinePoliciesYaml ie lib iamClient inlineOutput.PolicyNames
  let managedOutput ← deref roleManagedPoliciesOutput
  let managedPolicyArns ← funkMap (fun policy => deref policy.PolicyArn)
    managedOutput.AttachedPolicies
  let output ← deref roleOutput
  let role ← deref output.Role
  let assumeRolePolicyDocument ← deref role.AssumeRolePolicyDocument
  let jsonAssumedRolePolicyDoc := (lib.QueryUnescape assumeRolePolicyDocument).1
  let yamlAssumedRolePolicyDoc := (lib.JSONToYAML jsonAssumedRolePolicyDoc).1
  let description ← deref role.Description
  let maxSessionDuration ← deref role.MaxSessionDuration
  let path ← deref role.Path
  getCfnYamlSnippet ie description yamlAssumedRolePolicyDoc maxSessionDuration path
    inlinePolicies managedPolicyArns

/-- The method `extractIamRole`: extracts the role and handles the output to
standard output (`fmt.Println`) and to the file (`os.WriteFile`, its error
discarded).  A fatal error or a panic ends the process before any output. -/
def extractIamRole (ie : IAMExtractor) (lib : Codec) (iamClient : IamApi) (w : World) :
    Outcome Unit × World :=
  match extractIamRoleCfn ie lib iamClient with
  | .ok cfn =>
    let w1 : World :=
      if !ie.SuppressOutputStdout then { w with stdout := w.stdout ++ cfn ++ "\n".toList } else w
    let w2 : World :=
      if ie.FileName ≠ "".toList then { w1 with files := w1.files ++ [(ie.FileName, cfn)] } else w1
    (.ok (), w2)
  | .fatal msg => (.fatal msg, w)
  | .panic => (.panic, w)

/-! ## The mock of the test file -/

/-- The role the mock's `GetRole` returns. -/
def mockRole : Role where
  AssumeRolePolicyDocument := some "mock-policy-document".toList
  Description := some "mock-description".toList
  MaxSessionDuration := some 1
  Path := some "/".toList

/-- The mock `MockIamApi` of `root_test.go`. -/
def MockIamApi : IamApi where
  GetRole := fun _ => (some (GetRoleOutput.mk (some mockRole)), none)
  GetRolePolicy := fun _ _ => (some { PolicyDocument := some "mock-policy-doc".toList }, none)
  ListRolePolicies := fun _ =>
    (some { PolicyNames := ["policy1".toList, "policy2".toList] }, none)
  ListAttachedRolePolicies := fun _ =>
    (some { AttachedPolicies := [{ PolicyArn := some "mock-policy-1-arn".toList }] }, none)

/-- The receiver both tests build. -/
def testExtractor : IAMExtractor :=
  { RoleName := "test-role-name".toList, SuppressOutputStdout := true, FileName := "".toList }

/-- The values of the two decoders on documents that are plain words without
escapes, such as the mock's: `url.QueryUnescape` returns the word unchanged and
`yaml.JSONToYAML` returns it as a one-line yaml scalar. -/
def plainWordCodec : Codec where
  QueryUnescape := fun s => (s, none)
  JSONToYAML := fun s => (s ++ "\n".toList, none)

/-- A service like the mock whose `GetRolePolicy` fails the way the SDK client
does: a `nil` output and an error. -/
def failingPolicyApi : IamApi :=
  { MockIamApi with GetRolePolicy := fun _ _ => (none, some "NoSuchEntity".toList) }

/-- A service like the mock for a role without inline policy and without
managed policy. -/
def noPolicyApi : IamApi :=
  { MockIamApi with
    ListRolePolicies := fun _ => (some { PolicyNames := [] }, none)
    ListAttachedRolePolicies := fun _ => (some { AttachedPolicies := [] }, none) }

/-- A service like the mock whose `GetRole` fails the way the SDK client does:
a `nil` output and an error. -/
def failingRoleApi : IamApi :=
  { MockIamApi with GetRole := fun _ => (none, some "NoSuchEntity".toList) }

/-- A receiver that prints the snippet and writes it to a file. -/
def printingExtractor : IAMExtractor :=
  { RoleName := "test-role-name".toList, SuppressOutputStdout := false,
    FileName := "role.yaml".toList }

/-- The process before it has written anything. -/
def emptyWorld : World := { stdout := [], files := [] }

/-! ## Texts used to state the results -/

/-- The text of `indent` for a non-negative number of spaces (see `indent_eq`). -/
def indented (n : Nat) (s : Str) : Str :=
  Join ((Split s "\n".toList).map (fun line => List.replicate n ' ' ++ line)) "\n".toList

/-- The text `getCfnYamlSnippet` assembles, as a concatenation. -/
def snippetText (name role desc block : Str) (d : Int) (p : Str) (S A : List Str) : Str :=
  "\n".toList ++ name ++ ":\n".toList ++
  "  Type: AWS::IAM::Role\n".toList ++
  "  Properties: \n".toList ++
  "    RoleName: ".toList ++ role ++ "\n".toList ++
  "    Description: ".toList ++ desc ++ "\n".toList ++
  "    AssumeRolePolicyDocument:\n".toList ++
  block ++ "\n".toList ++
  "    MaxSessionDuration: ".toList ++ (toString d).toList ++ "\n".toList ++
  "    Path: '".toList ++ p ++ "'\n".toList ++
  "    Policies:\n".toList ++
  "      - ".toList ++ Join S "\n      - ".toList ++ "\n".toList ++
  "    ManagedPolicyArns:\n".toList ++
  "    - ".toList ++ Join A "\n    - ".toList ++ "\n".toList

/-- The text of one inline policy segment. -/
def segmentText (lib : Codec) (policyName document : Str) : Str :=
  "PolicyName: ".toList ++ policyName ++ "\n".toList ++ "        PolicyDocument:".toList ++
    "\n".toList ++ indented 10 (lib.JSONToYAML (lib.QueryUnescape document).1).1

/-! ## Lemmas on the library functions -/

@[simp] theorem Outcome.ok_bind {α β : Type} (a : α) (f : α → Outcome β) :
    (Outcome.ok a >>= f) = f a := rfl

@[simp] theorem Outcome.fatal_bind {α β : Type} (msg : Str) (f : α → Outcome β) :
    (Outcome.fatal msg >>= f) = Outcome.fatal msg := rfl

@[simp] theorem Outcome.panic_bind {α β : Type} (f : α → Outcome β) :
    (Outcome.panic >>= f) = Outcome.panic := rfl

@[simp] theorem Outcome.pure_eq {α : Type} (a : α) : (pure a : Outcome α) = Outcome.ok a := rfl

theorem funkMap_ok {α β : Type} (g : α → β) (l : List α) :
    funkMap (fun a => Outcome.ok (g a)) l = Outcome.ok (l.map g) := by
  induction l with
  | nil => rfl
  | cons a as ih => simp [funkMap, ih]

theorem repeatN_space (k : Nat) : repeatN [' '] k = List.replicate k ' ' := by
  induction k with
  | zero => rfl
  | succ k ih => simp [repeatN, ih, List.replicate_succ]

theorem Sprintf_two (a b : Str) : Sprintf "%s%s".toList [.str a, .str b] = a ++ b := by
  simp [Sprintf, formatVerb]

theorem splitAux_newline (rest cur : Str) :
    splitAux ['\n'] ('\n' :: rest) 0 cur = cur :: splitAux ['\n'] rest 0 [] := by
  simp [splitAux, List.isPrefixOf]

theorem splitAux_other (c : Char) (hc : c ≠ '\n') (rest cur : Str) :
    splitAux ['\n'] (c :: rest) 0 cur = splitAux ['\n'] rest 0 (cur ++ [c]) := by
  have h : ('\n' == c) = false := by
    simpa [beq_eq_false_iff_ne] using fun h => hc h.symm
  simp [splitAux, List.isPrefixOf, h]

theorem splitAux_append (l : Str) (hl : '\n' ∉ l) (rest cur : Str) :
    splitAux ['\n'] (l ++ rest) 0 cur = splitAux ['\n'] rest 0 (cur ++ l) := by
  induction l generalizing cur with
  | nil => simp
  | cons c cs ih =>
    have hc : c ≠ '\n' := fun h => hl (by simp [h])
    have hcs : '\n' ∉ cs := fun h => hl (List.mem_cons_of_mem _ h)
    rw [List.cons_append, splitAux_other c hc, ih hcs]
    simp

theorem splitAux_ne_nil (s cur : Str) : splitAux ['\n'] s 0 cur ≠ [] := by
  induction s generalizing cur with
  | nil => simp [splitAux]
  | cons c cs ih =>
    by_cases hc : c = '\n'
    · subst hc
      rw [splitAux_newline]
      simp
    · rw [splitAux_other c hc]
      exact ih _

theorem splitAux_no_newline (s cur : Str) (hcur : '\n' ∉ cur) :
    ∀ l ∈ splitAux ['\n'] s 0 cur, '\n' ∉ l := by
  induction s generalizing cur with
  | nil => simpa [splitAux] using hcur
  | cons c cs ih =>
    by_cases hc : c = '\n'
    · subst hc
      rw [splitAux_newline]
      intro l hl
      rcases List.mem_cons.mp hl with h | h
      · rw [h]
        exact hcur
      · exact ih [] (by simp) l h
    · rw [splitAux_other c hc]
      apply ih
      simp only [List.mem_append, List.mem_singleton, not_or]
      exact ⟨hcur, fun h => hc h.symm⟩

theorem Join_cons_cons (a b : Str) (rest : List Str) (sep : Str) :
    Join (a :: b :: rest) sep = a ++ sep ++ Join (b :: rest) sep := rfl

theorem Join_cons_of_ne_nil (a : Str) (ls : List Str) (sep : Str) (h : ls ≠ []) :
    Join (a :: ls) sep = a ++ sep ++ Join ls sep := by
  cases ls with
  | nil => exact absurd rfl h
  | cons b rest => rfl

/-- Joining the pieces of a split gives the text back. -/
theorem Join_splitAux (s cur : Str) : Join (splitAux ['\n'] s 0 cur) ['\n'] = cur ++ s := by
  induction s generalizing cur with
  | nil => simp [splitAux, Join]
  | cons c cs ih =>
    by_cases hc : c = '\n'
    · subst hc
      rw [splitAux_newline, Join_cons_of_ne_nil _ _ _ (splitAux_ne_nil cs []), ih]
      simp
    · rw [splitAux_other c hc, ih]
      simp

/-- Splitting a join of newline-free pieces gives the pieces back. -/
theorem splitAux_Join (ls : List Str) (hne : ls ≠ []) (hls : ∀ l ∈ ls, '\n' ∉ l) (cur : Str) :
    splitAux ['\n'] (Join ls ['\n']) 0 cur = (cur ++ ls.head hne) :: ls.tail := by
  induction ls generalizing cur with
  | nil => exact absurd rfl hne
  | cons a rest ih =>
    have ha : '\n' ∉ a := hls a (by simp)
    cases rest with
    | nil =>
      have h := splitAux_append a ha [] cur
      simp only [List.append_nil] at h
      simp [Join, h, splitAux]
    | cons b rest2 =>
      have hrest : ∀ l ∈ b :: rest2, '\n' ∉ l := fun l hl => hls l (List.mem_cons_of_mem _ hl)
      rw [Join_cons_cons, List.append_assoc, splitAux_append a ha, List.singleton_append,
        splitAux_newline, ih (by simp) hrest]
      simp

theorem Split_newline (s : Str) : Split s "\n".toList = splitAux ['\n'] s 0 [] := by
  simp [Split]

theorem Split_Join_newline (ls : List Str) (hne : ls ≠ []) (hls : ∀ l ∈ ls, '\n' ∉ l) :
    Split (Join ls "\n".toList) "\n".toList = ls := by
  rw [Split_newline]
  have h := splitAux_Join ls hne hls []
  have e : ("\n".toList : Str) = ['\n'] := rfl
  rw [e, h]
  cases ls with
  | nil => exact absurd rfl hne
  | cons a rest => simp

/-- The value of `indent` for a non-negative number of spaces. -/
theorem indent_eq (s : Str) (n : Nat) :
    indent s (n : Int) = Outcome.ok
      (Join ((Split s "\n".toList).map (fun line => List.replicate n ' ' ++ line))
        "\n".toList) := by
  have hn : ¬ ((n : Int) < 0) := by omega
  have e : (" ".toList : Str) = [' '] := rfl
  simp only [indent, Repeat, hn, if_false, Outcome.ok_bind, Outcome.pure_eq, Sprintf_two,
    funkMap_ok, Int.toNat_ofNat, e, repeatN_space]

/-- Removing every hyphen with `strings.Replace` keeps exactly the other
characters. -/
theorem replaceAux_hyphen (s : Str) (n : Int) (hn : n < 0) :
    replaceAux ['-'] [] s 0 n = s.filter (fun c => c != '-') := by
  induction s generalizing n with
  | nil => rfl
  | cons c cs ih =>
    have hn0 : n ≠ 0 := by omega
    by_cases hc : c = '-'
    · subst hc
      simp [replaceAux, List.isPrefixOf, hn0, ih (n - 1) (by omega)]
    · have h : ('-' == c) = false := by
        simpa [beq_eq_false_iff_ne] using fun h => hc h.symm
      simp [replaceAux, List.isPrefixOf, h, hc, ih n hn]

theorem getSanitizedRoleName_eq_filter (ie : IAMExtractor) (x : Str) :
    getSanitizedRoleName ie x = x.filter (fun c => c != '-') := by
  have h1 : ¬ (("-".toList : Str) = "".toList ∨ (-1 : Int) = 0) := by decide
  have h2 : ¬ (("-".toList : Str) = []) := by decide
  simp only [getSanitizedRoleName, Replace, h1, h2, if_false]
  exact replaceAux_hyphen x (-1) (by decide)

theorem formatInt_eq (d : Int) : formatInt d = (toString d).toList := by
  cases d with
  | ofNat m =>
    have h : ¬ (Int.ofNat m < 0) := Int.not_lt.mpr (Int.ofNat_zero_le m)
    simp only [formatInt, h, if_false]
    rfl
  | negSucc m =>
    have h : Int.negSucc m < 0 := Int.negSucc_lt_zero m
    simp only [formatInt, h, if_true]
    rfl

theorem Sprintf_cons_ne (c : Char) (hc : c ≠ '%') (fmt : Str) (args : List Arg) :
    Sprintf (c :: fmt) args = c :: Sprintf fmt args := by
  cases fmt with
  | nil => simp [Sprintf, hc]
  | cons v rest => simp [Sprintf, hc]

theorem Sprintf_text (lit : Str) (hlit : '%' ∉ lit) (fmt : Str) (args : List Arg) :
    Sprintf (lit ++ fmt) args = lit ++ Sprintf fmt args := by
  induction lit with
  | nil => rfl
  | cons c cs ih =>
    have hc : c ≠ '%' := fun h => hlit (by simp [h])
    have hcs : '%' ∉ cs := fun h => hlit (List.mem_cons_of_mem _ h)
    rw [List.cons_append, Sprintf_cons_ne c hc, ih hcs, List.cons_append]

theorem Sprintf_s (s : Str) (fmt : Str) (args : List Arg) :
    Sprintf ('%' :: 's' :: fmt) (.str s :: args) = s ++ Sprintf fmt args := by
  simp [Sprintf, formatVerb]

theorem Sprintf_d (d : Int) (fmt : Str) (args : List Arg) :
    Sprintf ('%' :: 'd' :: fmt) (.int32 d :: args) = formatInt d ++ Sprintf fmt args := by
  simp [Sprintf, formatVerb]

theorem cfnTemplate_eq : cfnTemplate =
    "\n".toList ++ ('%' :: 's' :: (":\n".toList ++ "  Type: AWS::IAM::Role\n".toList ++
      "  Properties: \n".toList ++ "    RoleName: ".toList ++ ('%' :: 's' :: ("\n".toList ++
      "    Description: ".toList ++ ('%' :: 's' :: ("\n".toList ++
      "    AssumeRolePolicyDocument:\n".toList ++ ('%' :: 's' :: ("\n".toList ++
      "    MaxSessionDuration: ".toList ++ ('%' :: 'd' :: ("\n".toList ++
      "    Path: '".toList ++ ('%' :: 's' :: ("'\n".toList ++
      "    Policies:\n".toList ++ "      - ".toList ++ ('%' :: 's' :: ("\n".toList ++
      "    ManagedPolicyArns:\n".toList ++ "    - ".toList ++
      ('%' :: 's' :: "\n".toList))))))))))))))) := by
  rfl

theorem getCfnYamlSnippet_eq (ie : IAMExtractor) (desc t : Str) (d : Int) (p : Str)
    (S A : List Str) :
    getCfnYamlSnippet ie desc t d p S A = Outcome.ok
      (snippetText (getSanitizedRoleName ie ie.RoleName) ie.RoleName desc (indented 6 t)
        d p S A) := by
  have h := indent_eq t 6
  simp only [Nat.cast_ofNat] at h
  simp only [getCfnYamlSnippet, h, Outcome.ok_bind, Outcome.pure_eq, snippetText, indented]
  rw [← formatInt_eq, cfnTemplate_eq]
  simp only [List.append_assoc]
  repeat (first | rw [Sprintf_s] | rw [Sprintf_d] | rw [Sprintf_text _ (by decide)])
  have e : Sprintf "\n".toList [] = "\n".toList := rfl
  rw [e]

theorem funkMap_eq_ok {α β : Type} (f : α → Outcome β) (g : α → β) (l : List α)
    (h : ∀ a ∈ l, f a = Outcome.ok (g a)) : funkMap f l = Outcome.ok (l.map g) := by
  induction l with
  | nil => rfl
  | cons a as ih =>
    have ha := h a (by simp)
    have has := ih (fun b hb => h b (List.mem_cons_of_mem _ hb))
    simp [funkMap, ha, has]

theorem getInlinePoliciesYaml_eq (ie : IAMExtractor) (lib : Codec) (iamClient : IamApi)
    (names : List Str) (doc : Str → Str)
    (h : ∀ name ∈ names, iamClient.GetRolePolicy name ie.RoleName =
      (some { PolicyDocument := some (doc name) }, none)) :
    getInlinePoliciesYaml ie lib iamClient names =
      Outcome.ok (names.map (fun name => segmentText lib name (doc name))) := by
  unfold getInlinePoliciesYaml
  apply funkMap_eq_ok
  intro name hname
  have h10 := indent_eq (lib.JSONToYAML (lib.QueryUnescape (doc name)).1).1 10
  simp only [Nat.cast_ofNat] at h10
  have hf : ("PolicyName: %s\n        PolicyDocument:\n%s".toList : Str) =
      "PolicyName: ".toList ++ ('%' :: 's' :: ("\n".toList ++ "        PolicyDocument:".toList ++
        "\n".toList ++ ('%' :: 's' :: []))) := rfl
  simp only [h name hname, deref, Outcome.ok_bind, Outcome.pure_eq, h10, segmentText, indented]
  rw [hf]
  simp only [List.append_assoc]
  repeat (first | rw [Sprintf_s] | rw [Sprintf_text _ (by decide)])
  simp [Sprintf]

theorem deref_some {α : Type} (a : α) : deref (some a) = Outcome.ok a := rfl

theorem contains_append_left {α : Type} (pat x y : List α) (h : pat <:+: y) : pat <:+: x ++ y := by
  obtain ⟨u, v, huv⟩ := h
  exact ⟨x ++ u, v, by simp [← huv]⟩

theorem contains_head_two {α : Type} (x y t : List α) : (x ++ y) <:+: x ++ (y ++ t) :=
  ⟨[], t, by simp⟩

theorem contains_head_three {α : Type} (x y z t : List α) :
    (x ++ (y ++ z)) <:+: x ++ (y ++ (z ++ t)) :=
  ⟨[], t, by simp⟩

theorem snippetText_contains_name (name role desc block : Str) (d : Int) (p : Str)
    (S A : List Str) :
    (name ++ ":".toList) <:+: snippetText name role desc block d p S A := by
  have e : (":\n".toList : Str) = ":".toList ++ "\n".toList := rfl
  simp only [snippetText, List.append_assoc]
  rw [e]
  simp only [List.append_assoc]
  apply contains_append_left
  exact contains_head_two _ _ _

theorem snippetText_contains_role (name role desc block : Str) (d : Int) (p : Str)
    (S A : List Str) :
    ("RoleName: ".toList ++ role ++ "\n".toList) <:+:
      snippetText name role desc block d p S A := by
  have e : ("    RoleName: ".toList : Str) = "    ".toList ++ "RoleName: ".toList := rfl
  simp only [snippetText]
  rw [e]
  simp only [List.append_assoc]
  iterate 6 apply contains_append_left
  exact contains_head_three _ _ _ _

/-- When the three lookups and every `GetRolePolicy` call return no error and
no `nil` output or field, the snippet of `extractIamRole` contains the
sanitized role name followed by a colon, and `RoleName: ` followed by the
original role name and a line break. -/
theorem extractIamRoleCfn_contains_names (ie : IAMExtractor) (lib : Codec) (iamClient : IamApi)
    (trust desc path : Str) (d : Int) (names : List Str) (doc : Str → Str)
    (policies : List AttachedPolicy) (arn : AttachedPolicy → Str)
    (hrole : iamClient.GetRole ie.RoleName =
      (some { Role := some { AssumeRolePolicyDocument := some trust, Description := some desc,
                             MaxSessionDuration := some d, Path := some path } }, none))
    (hnames : iamClient.ListRolePolicies ie.RoleName = (some { PolicyNames := names }, none))
    (hdocs : ∀ name ∈ names, iamClient.GetRolePolicy name ie.RoleName =
      (some { PolicyDocument := some (doc name) }, none))
    (hattached : iamClient.ListAttachedRolePolicies ie.RoleName =
      (some { AttachedPolicies := policies }, none))
    (harns : ∀ policy ∈ policies, policy.PolicyArn = some (arn policy)) :
    ∃ cfn, extractIamRoleCfn ie lib iamClient = Outcome.ok cfn ∧
      (getSanitizedRoleName ie ie.RoleName ++ ":".toList) <:+: cfn ∧
      ("RoleName: ".toList ++ ie.RoleName ++ "\n".toList) <:+: cfn := by
  have hinline := getInlinePoliciesYaml_eq ie lib iamClient names doc hdocs
  have hmanaged : funkMap (fun policy : AttachedPolicy => deref policy.PolicyArn) policies =
      Outcome.ok (policies.map arn) :=
    funkMap_eq_ok _ arn policies (fun policy hp => by rw [harns policy hp]; rfl)
  have hcfn : extractIamRoleCfn ie lib iamClient = Outcome.ok
      (snippetText (getSanitizedRoleName ie ie.RoleName) ie.RoleName desc
        (indented 6 (lib.JSONToYAML (lib.QueryUnescape trust).1).1) d path
        (names.map (fun name => segmentText lib name (doc name))) (policies.map arn)) := by
    simp only [extractIamRoleCfn, getRole, getInlinePolicies, getManagedPolicies, hrole, hnames,
      hattached, deref_some, Outcome.ok_bind, hinline, hmanaged, getCfnYamlSnippet_eq]
  exact ⟨_, hcfn, snippetText_contains_name _ _ _ _ _ _ _ _,
    snippetText_contains_role _ _ _ _ _ _ _ _⟩

set_option maxRecDepth 100000 in
/-- On the mock, a receiver that prints and writes does both: the snippet and a
line break go to standard output and the snippet to the file. -/
theorem extractIamRole_prints_and_writes :
    ∃ cfn, extractIamRoleCfn printingExtractor plainWordCodec MockIamApi = Outcome.ok cfn ∧
      extractIamRole printingExtractor plainWordCodec MockIamApi emptyWorld =
        (Outcome.ok (), { stdout := cfn ++ "\n".toList, files := [("role.yaml".toList, cfn)] }) :=
  ⟨_, rfl, rfl⟩

/-! ## The claims -/

/-- C1: for a non-negative number of spaces `n`, `indent s n` returns a text
with exactly as many lines as `s` (the pieces of the split on the line break),
and its `i`-th line is `n` spaces followed by the `i`-th line of `s`, blank
lines included. -/
theorem indent_lines (s : Str) (n : Int) (hn : 0 ≤ n) :
    ∃ r, indent s n = Outcome.ok r ∧
      (Split r "\n".toList).length = (Split s "\n".toList).length ∧
      ∀ i : Nat, (Split r "\n".toList)[i]? =
        ((Split s "\n".toList)[i]?).map (fun line => List.replicate n.toNat ' ' ++ line) := by
  obtain ⟨k, rfl⟩ := Int.eq_ofNat_of_zero_le hn
  refine ⟨_, indent_eq s k, ?_⟩
  have hne : (Split s "\n".toList).map (fun line => List.replicate k ' ' ++ line) ≠ [] := by
    rw [Split_newline]
    simpa using splitAux_ne_nil s []
  have hnl : ∀ l ∈ (Split s "\n".toList).map (fun line => List.replicate k ' ' ++ line),
      '\n' ∉ l := by
    intro l hl
    obtain ⟨line, hline, rfl⟩ := List.mem_map.mp hl
    rw [Split_newline] at hline
    have h1 := splitAux_no_newline s [] (by simp) line hline
    intro h
    rcases List.mem_append.mp h with h | h
    · have := List.eq_of_mem_replicate h
      exact absurd this (by decide)
    · exact h1 h
  rw [Split_Join_newline _ hne hnl]
  constructor
  · simp
  · intro i
    simp

/-- An instance of C1: a three-line text with a blank line, indented by two. -/
theorem indent_lines_witness :
    (0 : Int) ≤ 2 ∧ ∃ r, indent "a\n\nb".toList 2 = Outcome.ok r ∧
      (Split r "\n".toList).length = (Split "a\n\nb".toList "\n".toList).length ∧
      ∀ i : Nat, (Split r "\n".toList)[i]? =
        ((Split "a\n\nb".toList "\n".toList)[i]?).map
          (fun line => List.replicate (2 : Int).toNat ' ' ++ line) :=
  ⟨by decide, indent_lines "a\n\nb".toList 2 (by decide)⟩

/-- C2: `getSanitizedRoleName x` is `x` with every hyphen removed and the other
characters kept in order: it equals the non-hyphen characters of `x` and holds
no hyphen; the empty name gives the empty name and `test-role-name` gives
`testrolename`. -/
theorem getSanitizedRoleName_removes_hyphens (ie : IAMExtractor) (x : Str) :
    getSanitizedRoleName ie x = x.filter (fun c => c != '-') ∧
    '-' ∉ getSanitizedRoleName ie x ∧
    getSanitizedRoleName ie "".toList = "".toList ∧
    getSanitizedRoleName ie "test-role-name".toList = "testrolename".toList := by
  refine ⟨getSanitizedRoleName_eq_filter ie x, ?_, ?_, ?_⟩
  · rw [getSanitizedRoleName_eq_filter]
    simp [List.mem_filter]
  · rw [getSanitizedRoleName_eq_filter]
    rfl
  · rw [getSanitizedRoleName_eq_filter]
    decide

set_option maxRecDepth 100000 in
/-- C3, the code at the input of `TestRoleNameSanitized`: with the mock and the
receiver of the test file (role name `test-role-name`) the snippet contains
`testrolename:` and `RoleName: test-role-name` followed by a line break, and
it does not contain `RoleName: test-role-name:`, which the test asserts. -/
theorem extractIamRole_role_name_colon_absent :
    ∃ cfn, extractIamRoleCfn testExtractor plainWordCodec MockIamApi = Outcome.ok cfn ∧
      "testrolename:".toList <:+: cfn ∧
      "RoleName: test-role-name\n".toList <:+: cfn ∧
      ¬ ("RoleName: test-role-name:".toList <:+: cfn) := by
  refine ⟨_, rfl, ?_, ?_, ?_⟩ <;> decide

/-- C4: `getCfnYamlSnippet` returns exactly the template text: a line break, the
sanitized role name and a colon, the type line, the properties line, the
original role name, the description, the trust policy indented by 6, the
session duration in decimal, the quoted path, the inline policy segments joined
under `Policies:` and the ARNs joined under `ManagedPolicyArns:`, in the given
order, ending with a line break. -/
theorem getCfnYamlSnippet_text (ie : IAMExtractor) (desc t : Str) (d : Int) (p : Str)
    (S A : List Str) :
    ∃ block, indent t 6 = Outcome.ok block ∧
      getCfnYamlSnippet ie desc t d p S A = Outcome.ok (
        "\n".toList ++ getSanitizedRoleName ie ie.RoleName ++ ":\n".toList ++
        "  Type: AWS::IAM::Role\n".toList ++
        "  Properties: \n".toList ++
        "    RoleName: ".toList ++ ie.RoleName ++ "\n".toList ++
        "    Description: ".toList ++ desc ++ "\n".toList ++
        "    AssumeRolePolicyDocument:\n".toList ++
        block ++ "\n".toList ++
        "    MaxSessionDuration: ".toList ++ (toString d).toList ++ "\n".toList ++
        "    Path: '".toList ++ p ++ "'\n".toList ++
        "    Policies:\n".toList ++
        "      - ".toList ++ Join S "\n      - ".toList ++ "\n".toList ++
        "    ManagedPolicyArns:\n".toList ++
        "    - ".toList ++ Join A "\n    - ".toList ++ "\n".toList) := by
  have h := indent_eq t 6
  simp only [Nat.cast_ofNat] at h
  exact ⟨_, h, getCfnYamlSnippet_eq ie desc t d p S A⟩

/-- C5: when every `GetRolePolicy` call succeeds, `getInlinePoliciesYaml`
returns one segment per name, in the order of the names, and the `i`-th segment
is `PolicyName: ` with the `i`-th name, a line break, the line
`        PolicyDocument:`, a line break, and the transcoded document of that
policy indented by 10 columns. -/
theorem getInlinePoliciesYaml_segments (ie : IAMExtractor) (lib : Codec) (iamClient : IamApi)
    (names : List Str) (doc : Str → Str)
    (h : ∀ name ∈ names, iamClient.GetRolePolicy name ie.RoleName =
      (some { PolicyDocument := some (doc name) }, none)) :
    ∃ segments, getInlinePoliciesYaml ie lib iamClient names = Outcome.ok segments ∧
      segments.length = names.length ∧
      ∀ (i : Nat) (hi : i < names.length), ∃ block,
        indent (lib.JSONToYAML (lib.QueryUnescape (doc names[i])).1).1 10 = Outcome.ok block ∧
        segments[i]? = some ("PolicyName: ".toList ++ names[i] ++ "\n".toList ++
          "        PolicyDocument:".toList ++ "\n".toList ++ block) := by
  refine ⟨_, getInlinePoliciesYaml_eq ie lib iamClient names doc h, by simp, ?_⟩
  intro i hi
  have h10 := indent_eq (lib.JSONToYAML (lib.QueryUnescape (doc names[i])).1).1 10
  simp only [Nat.cast_ofNat] at h10
  refine ⟨_, h10, ?_⟩
  simp [segmentText, indented, hi]

/-- An instance of C5: the two policy names and the `GetRolePolicy` of the mock
in the test file. -/
theorem getInlinePoliciesYaml_segments_witness :
    (∀ name ∈ ["policy1".toList, "policy2".toList],
      MockIamApi.GetRolePolicy name testExtractor.RoleName =
        (some { PolicyDocument := some "mock-policy-doc".toList }, none)) ∧
    ∃ segments, getInlinePoliciesYaml testExtractor plainWordCodec MockIamApi
        ["policy1".toList, "policy2".toList] = Outcome.ok segments ∧
      segments.length = ["policy1".toList, "policy2".toList].length ∧
      ∀ (i : Nat) (hi : i < ["policy1".toList, "policy2".toList].length), ∃ block,
        indent (plainWordCodec.JSONToYAML (plainWordCodec.QueryUnescape
          ((fun _ => "mock-policy-doc".toList) ["policy1".toList, "policy2".toList][i])).1).1 10
          = Outcome.ok block ∧
        segments[i]? = some ("PolicyName: ".toList ++ ["policy1".toList, "policy2".toList][i] ++
          "\n".toList ++ "        PolicyDocument:".toList ++ "\n".toList ++ block) :=
  ⟨fun _ _ => rfl,
    getInlinePoliciesYaml_segments testExtractor plainWordCodec MockIamApi
      ["policy1".toList, "policy2".toList] (fun _ => "mock-policy-doc".toList)
      (fun _ _ => rfl)⟩

set_option maxRecDepth 100000 in
/-- C6, the code at a role without inline policy and without managed policy:
rendering does not fail, but each of the two sections of the snippet holds one
list item with nothing after its marker (the lines `      - ` and `    - `)
instead of being empty. -/
theorem extractIamRole_no_policies_fragment :
    extractIamRoleCfn testExtractor plainWordCodec noPolicyApi = Outcome.ok
      ("\ntestrolename:\n  Type: AWS::IAM::Role\n  Properties: \n" ++
       "    RoleName: test-role-name\n    Description: mock-description\n" ++
       "    AssumeRolePolicyDocument:\n      mock-policy-document\n      \n" ++
       "    MaxSessionDuration: 1\n    Path: '/'\n" ++
       "    Policies:\n      - \n    ManagedPolicyArns:\n    - \n").toList := by
  rfl

/-- C7, the code at a failing fetch: when `GetRolePolicy` returns a `nil` output
with its error, as the SDK client does, `getInlinePoliciesYaml` discards the
error, dereferences the output and panics; no segment is returned. -/
theorem getInlinePoliciesYaml_fetch_error_panics (ie : IAMExtractor) (lib : Codec) :
    getInlinePoliciesYaml ie lib failingPolicyApi ["policy1".toList, "policy2".toList] =
      Outcome.panic := by
  rfl

/-- C8: when one of the three required lookups (`GetRole`, `ListRolePolicies`,
`ListAttachedRolePolicies`) returns an error, `extractIamRole` ends with a
fatal error and leaves standard output and the files as they were, whatever
`SuppressOutputStdout` and `FileName` are. -/
theorem extractIamRole_lookup_error_fatal (ie : IAMExtractor) (lib : Codec)
    (iamClient : IamApi) (w : World)
    (h : (iamClient.GetRole ie.RoleName).2 ≠ none ∨
      (iamClient.ListRolePolicies ie.RoleName).2 ≠ none ∨
      (iamClient.ListAttachedRolePolicies ie.RoleName).2 ≠ none) :
    ∃ msg, extractIamRole ie lib iamClient w = (Outcome.fatal msg, w) := by
  unfold extractIamRole extractIamRoleCfn getRole getInlinePolicies getManagedPolicies
  rcases hr : iamClient.GetRole ie.RoleName with ⟨o1, _ | e1⟩ <;>
  rcases hl : iamClient.ListRolePolicies ie.RoleName with ⟨o2, _ | e2⟩ <;>
  rcases hm : iamClient.ListAttachedRolePolicies ie.RoleName with ⟨o3, _ | e3⟩ <;>
  simp [hr, hl, hm] at h ⊢

/-- An instance of C8: a failing `GetRole`, with a receiver that would print
the snippet and write it to a file. -/
theorem extractIamRole_lookup_error_fatal_witness :
    ((failingRoleApi.GetRole printingExtractor.RoleName).2 ≠ none ∨
      (failingRoleApi.ListRolePolicies printingExtractor.RoleName).2 ≠ none ∨
      (failingRoleApi.ListAttachedRolePolicies printingExtractor.RoleName).2 ≠ none) ∧
    ∃ msg, extractIamRole printingExtractor plainWordCodec failingRoleApi emptyWorld =
      (Outcome.fatal msg, emptyWorld) :=
  ⟨Or.inl (by decide),
    extractIamRole_lookup_error_fatal printingExtractor plainWordCodec failingRoleApi emptyWorld
      (Or.inl (by decide))⟩

/-- C9: `getSanitizedRoleName` is idempotent. -/
theorem getSanitizedRoleName_idempotent (ie : IAMExtractor) (x : Str) :
    getSanitizedRoleName ie (getSanitizedRoleName ie x) = getSanitizedRoleName ie x := by
  simp only [getSanitizedRoleName_eq_filter, List.filter_filter, Bool.and_self]

/-- C10: indenting by zero columns is the identity, for every text. -/
theorem indent_zero (s : Str) : indent s 0 = Outcome.ok s := by
  have h := indent_eq s 0
  simp only [Nat.cast_zero, List.replicate_zero, List.nil_append, List.map_id'] at h
  rw [h, Split_newline]
  have e : ("\n".toList : Str) = ['\n'] := rfl
  rw [e, Join_splitAux]
  simp

end IamExtractor
